import Mathlib

/-!
# Verification of the `jamanak` timing library (`src/include/jamanak.hpp`)

Shallow embedding of the single class `jamanak::Jamanak`.

Modelling conventions:
* Clock readings (`std::chrono::high_resolution_clock::time_point`) are opaque
  monotonic timestamps; we embed them as integers counting units of 10⁻⁵ ms
  ("ticks"), so that the C++ formatting `std::fixed << std::setprecision(5)`
  of `duration_ms` is exact and becomes a total function on integers
  (`fmt5`).  A record's `duration_ms` (a `double` in the source) is embedded
  as its exact tick count `duration_ticks`.
* `std::shared_ptr<Jam>` is embedded by value: the session's vector of
  shared pointers becomes a `List Jam`, the possibly-null `current_jam`
  becomes an `Option Jam`.
* Methods that may `throw std::runtime_error` return
  `Except String _ × Jamanak`: the guard that throws is the first statement
  of each method in the source, so on the error path the object is returned
  unchanged.
* Strings are sequences of characters; `std::string::size()` is embedded as
  the character count (all width-relevant strings produced by the library
  itself are ASCII except the en-dash fence token, which the source treats
  as one repetition unit).
-/

namespace jamanak

/-- The source `enum class State` with members `jamming` and `idle`. -/
inductive State where
  | jamming
  | idle
deriving DecidableEq, Repr

/-- The source `struct Jam`: one timing measurement.  `t0`, `t1` are clock readings in
ticks (10⁻⁵ ms); `duration_ticks` embeds the stored `duration_ms` exactly. -/
structure Jam where
  context : String
  t0 : Int
  t1 : Int
  duration_ticks : Int
deriving DecidableEq, Repr

/-- ANSI escape prefix `"\033["`. -/
def ANSI_ESC : String := "\x1b["

/-- The `ANSI_RESET` sequence. -/
def ANSI_RESET : String := ANSI_ESC ++ "0m"

/-- The `ANSI_BOLD` sequence. -/
def ANSI_BOLD : String := ANSI_ESC ++ "1m"

/-- The `ANSI_RGB(r,g,b)` sequence. -/
def ANSI_RGB (r g b : Nat) : String :=
  ANSI_ESC ++ "38;2;" ++ toString r ++ ";" ++ toString g ++ ";" ++ toString b ++ "m"

/-- Left-pad a digit string with `'0'` to length `n` (used by `fmt5` for the
five fractional digits). -/
def pad0 (n : Nat) (s : String) : String :=
  String.mk (List.replicate (n - s.length) '0') ++ s

/-- Decimal representation of a natural number (the digit sequence the C++
stream inserts for the integral part). -/
def natRepr (n : Nat) : String :=
  if _h : n < 10 then String.mk [Nat.digitChar n]
  else natRepr (n / 10) ++ String.mk [Nat.digitChar (n % 10)]
decreasing_by exact Nat.div_lt_self (by omega) (by omega)

/-- The stream insertion `std::ostringstream << std::fixed << std::setprecision(5) << duration_ms`
for a duration of `t` ticks (one tick = 10⁻⁵ ms): the sign, the integer part,
`'.'`, then exactly five fractional digits. -/
def fmt5 (t : Int) : String :=
  let sign := if t < 0 then "-" else ""
  let a := t.natAbs
  sign ++ natRepr (a / 100000) ++ "." ++ pad0 5 (natRepr (a % 100000))

/-- The helper `Jamanak::digits_before_decimal`: count of characters before the first
`'.'`, or the whole length if there is no `'.'`. -/
def digits_before_decimal (num : String) : Nat :=
  (num.toList.takeWhile (fun c => c ≠ '.')).length

/-- The helper `Jamanak::fence`: repeat the string `f` exactly `n` times (the loop
appends `f` to the stream once per iteration). -/
def fence (n : Nat) (f : String) : String :=
  match n with
  | 0 => ""
  | n + 1 => fence n f ++ f

/-- The source `class Jamanak`: the timer session. -/
structure Jamanak where
  global_context : String
  jams : List Jam
  current_jam : Option Jam
  jam_state : State
  longest : Nat
  longest_dur : Nat
  longest_bc : Nat
deriving DecidableEq, Repr

namespace Jamanak

/-- The constructor `Jamanak(std::string context)` together with the member
initializers: empty record list, no current jam, `State::idle`, all three
alignment maxima zero. -/
def construct (context : String) : Jamanak :=
  { global_context := context
    jams := []
    current_jam := none
    jam_state := State.idle
    longest := 0
    longest_dur := 0
    longest_bc := 0 }

/-- The method `Jamanak::start(context)` at clock reading `now`: throws
`"already jamming"` while a measurement runs, otherwise creates the current
jam with `t0 = now` (the other fields value-initialized) and transitions to
`State::jamming`. -/
def start (self : Jamanak) (context : String) (now : Int) :
    Except String Unit × Jamanak :=
  if self.jam_state = State.jamming then
    (Except.error "already jamming", self)
  else
    (Except.ok (),
      { self with
          current_jam := some { context := context, t0 := now, t1 := 0, duration_ticks := 0 }
          jam_state := State.jamming })

/-- The method `Jamanak::end()` at clock reading `now`: throws `"jamming not started"`
when idle or when there is no current jam; otherwise stamps `t1`, stores the
duration, appends the finished jam, updates the three alignment maxima from
the freshly formatted duration string, clears the current jam and returns to
`State::idle`.  Returns the finished jam. -/
def stop (self : Jamanak) (now : Int) : Except String Jam × Jamanak :=
  match self.current_jam with
  | none => (Except.error "jamming not started", self)
  | some cj =>
    if self.jam_state = State.idle then
      (Except.error "jamming not started", self)
    else
      let j : Jam := { cj with t1 := now, duration_ticks := now - cj.t0 }
      let s := fmt5 j.duration_ticks
      (Except.ok j,
        { self with
            jams := self.jams ++ [j]
            longest := max self.longest j.context.length
            longest_dur := max self.longest_dur s.length
            longest_bc := max self.longest_bc (digits_before_decimal s)
            current_jam := none
            jam_state := State.idle })

/-- The method `Jamanak::clean_jams()`: clears the vector of stored jams (resetting the
shared pointers it held).  It touches neither `current_jam` nor `jam_state`
nor the alignment maxima (the reset of the alignment stats is commented out
in the source). -/
def clean_jams (self : Jamanak) : Jamanak :=
  { self with jams := [] }

/-- The method `Jamanak::get_jams()`: the stored measurements. -/
def get_jams (self : Jamanak) : List Jam :=
  self.jams

/-- The method `Jamanak::is_jamming()`: `jam_state == State::jamming`. -/
def is_jamming (self : Jamanak) : Bool :=
  self.jam_state = State.jamming

/-- The loop body of `Jamanak::to_string` for one stored jam `j`: the styled
`"|| "` border, the styled context, an en-dash fill up to the longest label
plus two, `": "`, the duration string left-padded so the decimal points
align, `" ms"`, and the styled `" ||"` border, ending in a newline. -/
def jamLine (longest longest_bc : Nat) (j : Jam) : String :=
  let s := fmt5 j.duration_ticks
  let j_context_size := j.context.length
  ANSI_BOLD ++ ANSI_RGB 227 225 127 ++ "|| " ++ ANSI_RESET
    ++ ANSI_BOLD ++ ANSI_RGB 143 227 125 ++ j.context ++ ANSI_RESET
    ++ fence (longest - j_context_size + 2) "–" ++ ": "
    ++ ANSI_BOLD ++ ANSI_RGB 143 227 125
    ++ fence (longest_bc - digits_before_decimal s) " " ++ s ++ ANSI_RESET
    ++ " ms"
    ++ ANSI_BOLD ++ ANSI_RGB 227 225 127 ++ " ||" ++ ANSI_RESET ++ "\n"

/-- The method `Jamanak::to_string()`: the full report — bold/colored full-width en-dash
rule, centered title, second rule, one `jamLine` per stored jam in order, and
a closing rule. -/
def to_string (self : Jamanak) : String :=
  let l_size := max (self.longest + self.longest_dur) self.global_context.length + 13
  let sf_size := l_size / 2 - self.global_context.length / 2
  ANSI_BOLD ++ ANSI_RGB 227 225 127
    ++ fence l_size "–" ++ "\n"
    ++ fence sf_size " " ++ self.global_context ++ "\n"
    ++ fence l_size "–" ++ "\n"
    ++ String.join (self.jams.map (jamLine self.longest self.longest_bc))
    ++ ANSI_BOLD ++ ANSI_RGB 227 225 127 ++ fence l_size "–" ++ ANSI_RESET ++ "\n"

/-- Since `to_string` is a `const` method, in the state-passing embedding the
render operation returns the report together with the (unchanged) object. -/
def render (self : Jamanak) : String × Jamanak :=
  (self.to_string, self)

end Jamanak

/-- One public-API call, with the clock reading a call consumes embedded in
the operation (queries and `clean_jams` read no clock). -/
inductive Op where
  | start (label : String) (now : Int)
  | stop (now : Int)
  | clean
  | getJams
  | isJamming
  | render
deriving DecidableEq, Repr

/-- The state after one call: mutators apply their effect (on the error path
the object is unchanged, since the source throws before mutating); queries
and `render` leave the state as is. -/
def stepOp (s : Jamanak) (op : Op) : Jamanak :=
  match op with
  | Op.start l t => (s.start l t).2
  | Op.stop t => (s.stop t).2
  | Op.clean => s.clean_jams
  | Op.getJams => s
  | Op.isJamming => s
  | Op.render => (s.render).2

/-- Run a call sequence from a given state. -/
def runFrom (s : Jamanak) (ops : List Op) : Jamanak :=
  ops.foldl stepOp s

/-- Run a call sequence on a freshly constructed session. -/
def runOps (title : String) (ops : List Op) : Jamanak :=
  runFrom (Jamanak.construct title) ops

/-- The clock readings a call sequence consumes, in order. -/
def opTimes (ops : List Op) : List Int :=
  ops.foldr (fun op acc =>
    match op with
    | Op.start _ t => t :: acc
    | Op.stop t => t :: acc
    | _ => acc) []

/-- Remove ANSI escape sequences from a character list: on `ESC` (`'\x1b'`),
drop everything up to and including the terminating `'m'`; keep every other
character. -/
def stripAnsiAux : List Char → List Char
  | [] => []
  | c :: rest =>
    if c = '\x1b' then
      stripAnsiAux ((rest.dropWhile (fun d => d != 'm')).drop 1)
    else
      c :: stripAnsiAux rest
termination_by l => l.length
decreasing_by
  all_goals simp_wf
  all_goals have h1 := (List.dropWhile_sublist (l := rest) (fun d => d != 'm')).length_le
  all_goals have h2 := List.length_drop 1 (rest.dropWhile (fun d => d != 'm'))
  all_goals omega

/-- Remove ANSI escape sequences from a string (the claim-side notion of
reading a report line "ignoring styling escape sequences"). -/
def stripAnsi (s : String) : String :=
  String.mk (stripAnsiAux s.toList)

/-- A well-paired call sequence: for each `(label, t0, t1)` in the list, a
`start label` at reading `t0` immediately followed by its matching `end` at
reading `t1`. -/
def runPairs (s : Jamanak) (ps : List (String × Int × Int)) : Jamanak :=
  ps.foldl (fun s p => ((s.start p.1 p.2.1).2.stop p.2.2).2) s

end jamanak

namespace jamanak

/-! ## Theorems -/

/-- Claim C1 (amended): `clean_jams` empties the stored records but modifies
neither `current_jam` nor `jam_state`; immediately after the call
`get_jams` is empty and `is_jamming` returns exactly what it returned
before the call. -/
theorem clean_jams_clears_records_only (s : Jamanak) :
    s.clean_jams.get_jams = [] ∧
    s.clean_jams.current_jam = s.current_jam ∧
    s.clean_jams.jam_state = s.jam_state ∧
    s.clean_jams.is_jamming = s.is_jamming :=
  ⟨rfl, rfl, rfl, rfl⟩

/-- Claim C1 counterexample: in the session obtained by `construct "T"` followed by
`start "A"`, calling `clean_jams` leaves the measurement in progress:
`is_jamming` is still `true`, `jam_state` is not `idle`, and `current_jam`
is not `none` — contradicting the claim that `clear()` resets
`active_record` to none, resets `run_state` to `IDLE`, and makes
`is_running()` false. -/
theorem clean_jams_midrun_keeps_running :
    ¬ ((((Jamanak.construct "T").start "A" 0).2.clean_jams.is_jamming = false) ∧
       (((Jamanak.construct "T").start "A" 0).2.clean_jams.jam_state = State.idle) ∧
       (((Jamanak.construct "T").start "A" 0).2.clean_jams.current_jam = none)) := by
  decide

/-- Claim C2: calling `start` while a measurement is running returns the
`"already jamming"` error and the entire session state — records,
in-progress jam, run state, and the three alignment caches — is returned
unchanged. -/
theorem start_while_running_fails_unchanged (s : Jamanak) (label : String) (t : Int)
    (h : s.jam_state = State.jamming) :
    s.start label t = (Except.error "already jamming", s) := by
  simp [Jamanak.start, h]

/-- Witness for C2 at a concrete running session. -/
theorem start_while_running_fails_unchanged_witness :
    ((Jamanak.construct "T").start "A" 0).2.jam_state = State.jamming ∧
    ((Jamanak.construct "T").start "A" 0).2.start "B" 5 =
      (Except.error "already jamming", ((Jamanak.construct "T").start "A" 0).2) :=
  ⟨by decide, start_while_running_fails_unchanged _ "B" 5 (by decide)⟩

/-- Claim C3: calling `end` while idle returns the `"jamming not started"` error
and the entire session state — records, run state, and the three alignment
caches — is returned unchanged. -/
theorem end_while_idle_fails_unchanged (s : Jamanak) (t : Int)
    (h : s.jam_state = State.idle) :
    s.stop t = (Except.error "jamming not started", s) := by
  unfold Jamanak.stop
  cases hc : s.current_jam with
  | none => rfl
  | some cj => simp [h]

/-- Witness for C3 at a concrete idle session. -/
theorem end_while_idle_fails_unchanged_witness :
    (Jamanak.construct "T").jam_state = State.idle ∧
    (Jamanak.construct "T").stop 3 =
      (Except.error "jamming not started", Jamanak.construct "T") :=
  ⟨by decide, end_while_idle_fails_unchanged _ 3 (by decide)⟩

/-- Claim C8: `render` is pure: it returns the session unchanged, and a second
`render` on the returned session produces the identical string. -/
theorem render_is_pure (s : Jamanak) :
    (s.render).2 = s ∧ ((s.render).2.render).1 = (s.render).1 :=
  ⟨rfl, rfl⟩

/-- One API call preserves the state-machine invariant
`current_jam = none ↔ jam_state = idle`. -/
lemma stepOp_state_inv (s : Jamanak) (op : Op)
    (h : s.current_jam = none ↔ s.jam_state = State.idle) :
    (stepOp s op).current_jam = none ↔ (stepOp s op).jam_state = State.idle := by
  cases op with
  | start l t =>
    by_cases hj : s.jam_state = State.jamming
    · simpa [stepOp, Jamanak.start, hj] using h
    · simp [stepOp, Jamanak.start, hj]
  | stop t =>
    cases hc : s.current_jam with
    | none => simpa [stepOp, Jamanak.stop, hc] using h
    | some cj =>
      by_cases hi : s.jam_state = State.idle
      · simpa [stepOp, Jamanak.stop, hc, hi] using h
      · simp [stepOp, Jamanak.stop, hc, hi]
  | clean => simpa [stepOp, Jamanak.clean_jams] using h
  | getJams => simpa [stepOp] using h
  | isJamming => simpa [stepOp] using h
  | render => simpa [stepOp, Jamanak.render] using h

/-- A whole call sequence preserves the state-machine invariant. -/
lemma runFrom_state_inv (ops : List Op) : ∀ s : Jamanak,
    (s.current_jam = none ↔ s.jam_state = State.idle) →
    ((runFrom s ops).current_jam = none ↔ (runFrom s ops).jam_state = State.idle) := by
  induction ops with
  | nil => intro s h; exact h
  | cons op rest ih =>
    intro s h
    exact ih (stepOp s op) (stepOp_state_inv s op h)

/-- Claim C4: in every state reachable from `construct title` by any sequence of
API calls, `current_jam` is non-null exactly when `jam_state` is `jamming`,
and `is_jamming` returns `true` exactly when an in-progress measurement
exists. -/
theorem active_record_iff_running (title : String) (ops : List Op) :
    ((runOps title ops).current_jam ≠ none ↔
      (runOps title ops).jam_state = State.jamming) ∧
    ((runOps title ops).is_jamming = true ↔
      (runOps title ops).current_jam ≠ none) := by
  have h := runFrom_state_inv ops (Jamanak.construct title) (by simp [Jamanak.construct])
  have hstate : ((runOps title ops).jam_state = State.jamming) ↔
      ¬ ((runOps title ops).jam_state = State.idle) := by
    cases hs : (runOps title ops).jam_state <;> simp
  constructor
  · rw [hstate]
    exact not_congr h
  · rw [Jamanak.is_jamming, decide_eq_true_iff, hstate]
    exact (not_congr h).symm

/-- One API call preserves the alignment-cache invariant: every stored jam's
label length is bounded by `longest` and the digits before the decimal point
of its formatted duration are bounded by `longest_bc`. -/
lemma stepOp_cache_inv (s : Jamanak) (op : Op)
    (h : ∀ j ∈ s.jams, j.context.length ≤ s.longest ∧
      digits_before_decimal (fmt5 j.duration_ticks) ≤ s.longest_bc) :
    ∀ j ∈ (stepOp s op).jams, j.context.length ≤ (stepOp s op).longest ∧
      digits_before_decimal (fmt5 j.duration_ticks) ≤ (stepOp s op).longest_bc := by
  cases op with
  | start l t =>
    by_cases hj : s.jam_state = State.jamming
    · simpa [stepOp, Jamanak.start, hj] using h
    · simpa [stepOp, Jamanak.start, hj] using h
  | stop t =>
    cases hc : s.current_jam with
    | none => simpa [stepOp, Jamanak.stop, hc] using h
    | some cj =>
      by_cases hi : s.jam_state = State.idle
      · simpa [stepOp, Jamanak.stop, hc, hi] using h
      · intro j hj
        simp only [stepOp, Jamanak.stop, hc, hi, if_neg] at hj ⊢
        rcases List.mem_append.mp hj with hold | hnew
        · exact ⟨le_trans (h j hold).1 (le_max_left _ _),
            le_trans (h j hold).2 (le_max_left _ _)⟩
        · rcases List.mem_singleton.mp hnew with rfl
          exact ⟨le_max_right _ _, le_max_right _ _⟩
  | clean => simp [stepOp, Jamanak.clean_jams]
  | getJams => simpa [stepOp] using h
  | isJamming => simpa [stepOp] using h
  | render => simpa [stepOp, Jamanak.render] using h

/-- A whole call sequence preserves the alignment-cache invariant. -/
lemma runFrom_cache_inv (ops : List Op) : ∀ s : Jamanak,
    (∀ j ∈ s.jams, j.context.length ≤ s.longest ∧
      digits_before_decimal (fmt5 j.duration_ticks) ≤ s.longest_bc) →
    ∀ j ∈ (runFrom s ops).jams,
      j.context.length ≤ (runFrom s ops).longest ∧
      digits_before_decimal (fmt5 j.duration_ticks) ≤ (runFrom s ops).longest_bc := by
  induction ops with
  | nil => intro s h; exact h
  | cons op rest ih =>
    intro s h
    exact ih (stepOp s op) (stepOp_cache_inv s op h)

/-- Claim C10: in every state reachable through the public API (including after
`clean_jams`, which keeps the caches), `longest` bounds every stored label
length and `longest_bc` bounds the digits-before-decimal count of every
stored record's formatted duration, so the `Nat` subtractions
`longest - j.context.length` and
`longest_bc - digits_before_decimal (fmt5 j.duration_ticks)` used by
`to_string` never underflow. -/
theorem alignment_caches_bound_records (title : String) (ops : List Op) :
    ∀ j ∈ (runOps title ops).get_jams,
      j.context.length ≤ (runOps title ops).longest ∧
      digits_before_decimal (fmt5 j.duration_ticks) ≤ (runOps title ops).longest_bc := by
  exact runFrom_cache_inv ops (Jamanak.construct title) (by simp [Jamanak.construct])

lemma opTimes_cons_start (l : String) (t : Int) (rest : List Op) :
    opTimes (Op.start l t :: rest) = t :: opTimes rest := rfl

lemma opTimes_cons_stop (t : Int) (rest : List Op) :
    opTimes (Op.stop t :: rest) = t :: opTimes rest := rfl

lemma opTimes_cons_clean (rest : List Op) :
    opTimes (Op.clean :: rest) = opTimes rest := rfl

lemma opTimes_cons_getJams (rest : List Op) :
    opTimes (Op.getJams :: rest) = opTimes rest := rfl

lemma opTimes_cons_isJamming (rest : List Op) :
    opTimes (Op.isJamming :: rest) = opTimes rest := rfl

lemma opTimes_cons_render (rest : List Op) :
    opTimes (Op.render :: rest) = opTimes rest := rfl

/-- Core induction for C9: if the stored jams are consistent, the clock
readings still to be consumed are pairwise non-decreasing, and any
in-progress jam started no later than every upcoming reading, then after the
whole call sequence every stored jam has `t0 ≤ t1` and the stored duration
equal to `t1 - t0`. -/
lemma runFrom_durations (ops : List Op) : ∀ s : Jamanak,
    (∀ j ∈ s.jams, j.t0 ≤ j.t1 ∧ j.duration_ticks = j.t1 - j.t0) →
    List.Pairwise (· ≤ ·) (opTimes ops) →
    (∀ cj, s.current_jam = some cj → ∀ t ∈ opTimes ops, cj.t0 ≤ t) →
    ∀ j ∈ (runFrom s ops).jams, j.t0 ≤ j.t1 ∧ j.duration_ticks = j.t1 - j.t0 := by
  induction ops with
  | nil => intro s hjams _ _; exact hjams
  | cons op rest ih =>
    intro s hjams hp hcur
    cases op with
    | start l t =>
      rw [opTimes_cons_start] at hp hcur
      obtain ⟨hhead, hrest⟩ := List.pairwise_cons.mp hp
      by_cases hj : s.jam_state = State.jamming
      · show ∀ j ∈ (runFrom (stepOp s (Op.start l t)) rest).jams, _
        simp only [stepOp, Jamanak.start, hj, if_pos]
        exact ih s hjams hrest
          (fun cj hc t' ht' => hcur cj hc t' (List.mem_cons_of_mem _ ht'))
      · show ∀ j ∈ (runFrom (stepOp s (Op.start l t)) rest).jams, _
        simp only [stepOp, Jamanak.start, hj, if_neg, not_false_iff]
        apply ih _ (by simpa using hjams) hrest
        intro cj hc t' ht'
        have h' : (⟨l, t, 0, 0⟩ : Jam) = cj := by simpa using hc
        rw [← h']
        exact hhead t' ht'
    | stop t =>
      rw [opTimes_cons_stop] at hp hcur
      obtain ⟨hhead, hrest⟩ := List.pairwise_cons.mp hp
      cases hc : s.current_jam with
      | none =>
        show ∀ j ∈ (runFrom (stepOp s (Op.stop t)) rest).jams, _
        simp only [stepOp, Jamanak.stop, hc]
        exact ih s hjams hrest
          (fun cj hc' t' ht' => hcur cj hc' t' (List.mem_cons_of_mem _ ht'))
      | some cj =>
        by_cases hi : s.jam_state = State.idle
        · show ∀ j ∈ (runFrom (stepOp s (Op.stop t)) rest).jams, _
          simp only [stepOp, Jamanak.stop, hc, hi, if_pos]
          exact ih s hjams hrest
            (fun cj' hc' t' ht' => hcur cj' hc' t' (List.mem_cons_of_mem _ ht'))
        · show ∀ j ∈ (runFrom (stepOp s (Op.stop t)) rest).jams, _
          simp only [stepOp, Jamanak.stop, hc, hi, if_neg, not_false_iff]
          apply ih _ _ hrest
          · intro cj' hc'
            simp at hc'
          · intro j' hj'
            simp only [List.mem_append] at hj'
            rcases hj' with hold | hnew
            · exact hjams j' hold
            · rcases List.mem_singleton.mp hnew with rfl
              refine ⟨?_, rfl⟩
              exact hcur cj hc t (List.mem_cons_self _ _)
    | clean =>
      rw [opTimes_cons_clean] at hp hcur
      show ∀ j ∈ (runFrom (stepOp s Op.clean) rest).jams, _
      simp only [stepOp, Jamanak.clean_jams]
      apply ih _ (by simp) hp
      intro cj hc t' ht'
      exact hcur cj hc t' ht'
    | getJams =>
      rw [opTimes_cons_getJams] at hp hcur
      exact ih s hjams hp hcur
    | isJamming =>
      rw [opTimes_cons_isJamming] at hp hcur
      exact ih s hjams hp hcur
    | render =>
      rw [opTimes_cons_render] at hp hcur
      exact ih s hjams hp hcur

/-- Claim C9: if the clock readings consumed by a call sequence are non-decreasing
(each reading at least every earlier one), then every record stored by `end`
satisfies `t0 ≤ t1`, has a non-negative duration, and its stored duration is
exactly `t1 - t0` ticks (i.e. the elapsed time in fractional
milliseconds). -/
theorem stored_durations_consistent (title : String) (ops : List Op)
    (hmono : List.Pairwise (· ≤ ·) (opTimes ops)) :
    ∀ j ∈ (runOps title ops).get_jams,
      j.t0 ≤ j.t1 ∧ 0 ≤ j.duration_ticks ∧ j.duration_ticks = j.t1 - j.t0 := by
  intro j hj
  have h := runFrom_durations ops (Jamanak.construct title)
    (by simp [Jamanak.construct]) hmono (by simp [Jamanak.construct]) j hj
  refine ⟨h.1, ?_, h.2⟩
  omega

/-- Witness for C9 at a concrete monotone run. -/
theorem stored_durations_consistent_witness :
    List.Pairwise (· ≤ ·) (opTimes [Op.start "A" 2, Op.stop 5]) ∧
    ((⟨"A", 2, 5, 3⟩ : Jam) ∈ (runOps "T" [Op.start "A" 2, Op.stop 5]).get_jams) ∧
    ((⟨"A", 2, 5, 3⟩ : Jam).t0 ≤ (⟨"A", 2, 5, 3⟩ : Jam).t1 ∧
      0 ≤ (⟨"A", 2, 5, 3⟩ : Jam).duration_ticks ∧
      (⟨"A", 2, 5, 3⟩ : Jam).duration_ticks =
        (⟨"A", 2, 5, 3⟩ : Jam).t1 - (⟨"A", 2, 5, 3⟩ : Jam).t0) :=
  ⟨by decide, by decide,
    stored_durations_consistent "T" [Op.start "A" 2, Op.stop 5]
      (by decide) _ (by decide)⟩

lemma runPairs_nil (s : Jamanak) : runPairs s [] = s := rfl

lemma runPairs_cons (s : Jamanak) (p : String × Int × Int)
    (ps : List (String × Int × Int)) :
    runPairs s (p :: ps) = runPairs ((s.start p.1 p.2.1).2.stop p.2.2).2 ps := rfl

/-- Core induction for C5: from an idle session, a list of well-paired
`start`/`end` calls appends exactly one completed record per pair, in order,
with the pair's label and timestamps, and finishes idle. -/
lemma runPairs_spec (ps : List (String × Int × Int)) : ∀ s : Jamanak,
    s.jam_state = State.idle →
    (runPairs s ps).jams =
      s.jams ++ ps.map (fun p => (⟨p.1, p.2.1, p.2.2, p.2.2 - p.2.1⟩ : Jam)) ∧
    (runPairs s ps).jam_state = State.idle := by
  induction ps with
  | nil => intro s h; exact ⟨by simp [runPairs_nil], h⟩
  | cons p rest ih =>
    intro s h
    have hne : ¬ s.jam_state = State.jamming := by simp [h]
    have hstep : ((s.start p.1 p.2.1).2.stop p.2.2).2 =
        { s with
          jams := s.jams ++ [(⟨p.1, p.2.1, p.2.2, p.2.2 - p.2.1⟩ : Jam)]
          current_jam := none
          jam_state := State.idle
          longest := max s.longest p.1.length
          longest_dur := max s.longest_dur (fmt5 (p.2.2 - p.2.1)).length
          longest_bc := max s.longest_bc
            (digits_before_decimal (fmt5 (p.2.2 - p.2.1))) } := by
      simp [Jamanak.start, Jamanak.stop, hne]
    obtain ⟨hj, hs⟩ := ih (((s.start p.1 p.2.1).2.stop p.2.2).2) (by rw [hstep])
    rw [runPairs_cons]
    refine ⟨?_, hs⟩
    rw [hj, hstep]
    simp [List.append_assoc]

/-- Claim C5: a fresh session run through `n` well-paired `start`/`end` calls holds
exactly `n` completed records, in completion order, the `i`-th carrying the
label passed to the `i`-th `start`. -/
theorem well_paired_records (title : String) (ps : List (String × Int × Int)) :
    (runPairs (Jamanak.construct title) ps).get_jams.length = ps.length ∧
    (runPairs (Jamanak.construct title) ps).get_jams.map Jam.context =
      ps.map Prod.fst := by
  obtain ⟨hj, _⟩ := runPairs_spec ps (Jamanak.construct title) rfl
  rw [Jamanak.get_jams, hj]
  constructor
  · simp [Jamanak.construct]
  · simp [Jamanak.construct]

/-- Witness for C10 at a concrete run with one completed record. -/
theorem alignment_caches_bound_records_witness :
    ((⟨"A", 2, 5, 3⟩ : Jam) ∈ (runOps "T" [Op.start "A" 2, Op.stop 5]).get_jams) ∧
    ((⟨"A", 2, 5, 3⟩ : Jam).context.length ≤
      (runOps "T" [Op.start "A" 2, Op.stop 5]).longest ∧
      digits_before_decimal (fmt5 (⟨"A", 2, 5, 3⟩ : Jam).duration_ticks) ≤
      (runOps "T" [Op.start "A" 2, Op.stop 5]).longest_bc) :=
  ⟨by decide,
    alignment_caches_bound_records "T" [Op.start "A" 2, Op.stop 5] _ (by decide)⟩

/-! ## Formatting toolkit: `fence`, `natRepr`, and ANSI stripping -/

lemma fence_single (n : Nat) (c : Char) :
    fence n (String.mk [c]) = String.mk (List.replicate n c) := by
  induction n with
  | zero => rfl
  | succ n ih =>
    rw [fence, ih]
    show String.mk (List.replicate n c ++ [c]) = _
    rw [← List.replicate_succ' n c]

lemma fence_dash (n : Nat) : fence n "–" = String.mk (List.replicate n '–') :=
  fence_single n '–'

lemma fence_space (n : Nat) : fence n " " = String.mk (List.replicate n ' ') :=
  fence_single n ' '

lemma data_mk (l : List Char) : (String.mk l).data = l := rfl

lemma natRepr_length_le : ∀ (k n : Nat), 0 < k → n < 10 ^ k → (natRepr n).length ≤ k := by
  intro k
  induction k with
  | zero => intro n h; omega
  | succ k ihk =>
    intro n _ hn
    rw [natRepr.eq_def]
    split
    · next h =>
      show (String.mk [Nat.digitChar n]).length ≤ k + 1
      have h1 : (String.mk [Nat.digitChar n]).length = 1 := rfl
      omega
    · next h =>
      rw [String.length_append]
      have hk : 0 < k := by
        rcases Nat.eq_zero_or_pos k with rfl | hpos
        · simp at hn; omega
        · exact hpos
      have hdiv : n / 10 < 10 ^ k := by
        rw [Nat.div_lt_iff_lt_mul (by omega)]
        calc n < 10 ^ (k + 1) := hn
          _ = 10 ^ k * 10 := by ring
      have h1 := ihk (n / 10) hk hdiv
      have h2 : (String.mk [Nat.digitChar (n % 10)]).length = 1 := rfl
      omega

lemma pad0_length (a : Nat) (ha : a < 100000) : (pad0 5 (natRepr a)).length = 5 := by
  have h1 : (natRepr a).length ≤ 5 := natRepr_length_le 5 a (by omega) (by norm_num; omega)
  rw [pad0, String.length_append]
  have h2 : (String.mk (List.replicate (5 - (natRepr a).length) '0')).length
      = 5 - (natRepr a).length := by
    show (List.replicate (5 - (natRepr a).length) '0').length = _
    rw [List.length_replicate]
  omega

/-- The exact decomposition of `fmt5`: sign, integral digits, the decimal
point, and the zero-padded five fractional digits. -/
lemma fmt5_decomp (t : Int) :
    fmt5 t = (if t < 0 then "-" else "")
      ++ natRepr (t.natAbs / 100000) ++ "." ++ pad0 5 (natRepr (t.natAbs % 100000)) := rfl

lemma dropWhile_nem (body : List Char) (ys : List Char) (hm : ∀ c ∈ body, ¬ c = 'm') :
    (body ++ 'm' :: ys).dropWhile (fun d => d != 'm') = 'm' :: ys := by
  induction body with
  | nil => simp [List.dropWhile_cons]
  | cons c cs ih =>
    have hc : (c != 'm') = true := by
      have := hm c (List.mem_cons_self _ _)
      simp [this]
    rw [List.cons_append, List.dropWhile_cons]
    simp only [hc, if_true]
    exact ih (fun c' h' => hm c' (List.mem_cons_of_mem _ h'))

/-- Stripping a complete escape sequence (`ESC`, a body free of `'m'`, then
the terminating `'m'`) removes it entirely. -/
lemma stripAnsiAux_escseq (body ys : List Char) (hm : ∀ c ∈ body, ¬ c = 'm') :
    stripAnsiAux ('\x1b' :: (body ++ 'm' :: ys)) = stripAnsiAux ys := by
  rw [stripAnsiAux]
  simp [dropWhile_nem body ys hm]

/-- Stripping distributes over an escape-free left part. -/
lemma stripAnsiAux_append_escfree (xs ys : List Char) (h : ∀ c ∈ xs, ¬ c = '\x1b') :
    stripAnsiAux (xs ++ ys) = xs ++ stripAnsiAux ys := by
  induction xs with
  | nil => simp
  | cons c cs ih =>
    have hc : ¬ c = '\x1b' := h c (List.mem_cons_self _ _)
    rw [List.cons_append, stripAnsiAux]
    simp only [hc, if_false]
    rw [ih (fun c' h' => h c' (List.mem_cons_of_mem _ h'))]
    rfl

lemma strip_escseq_of_data (K : String) (body : List Char) (ys : List Char)
    (hK : K.data = '\x1b' :: (body ++ ['m'])) (hm : ∀ c ∈ body, ¬ c = 'm') :
    stripAnsiAux (K.data ++ ys) = stripAnsiAux ys := by
  rw [hK]
  have h2 : ('\x1b' :: (body ++ ['m'])) ++ ys = '\x1b' :: (body ++ 'm' :: ys) := by simp
  rw [h2, stripAnsiAux_escseq body ys hm]

lemma strip_bold (ys : List Char) :
    stripAnsiAux (ANSI_BOLD.data ++ ys) = stripAnsiAux ys :=
  strip_escseq_of_data _ ['[', '1'] ys (by decide) (by decide)

lemma strip_reset (ys : List Char) :
    stripAnsiAux (ANSI_RESET.data ++ ys) = stripAnsiAux ys :=
  strip_escseq_of_data _ ['[', '0'] ys (by decide) (by decide)

lemma strip_rgb1 (ys : List Char) :
    stripAnsiAux ((ANSI_RGB 227 225 127).data ++ ys) = stripAnsiAux ys :=
  strip_escseq_of_data _
    ['[', '3', '8', ';', '2', ';', '2', '2', '7', ';', '2', '2', '5', ';', '1', '2', '7']
    ys (by decide) (by decide)

lemma strip_rgb2 (ys : List Char) :
    stripAnsiAux ((ANSI_RGB 143 227 125).data ++ ys) = stripAnsiAux ys :=
  strip_escseq_of_data _
    ['[', '3', '8', ';', '2', ';', '1', '4', '3', ';', '2', '2', '7', ';', '1', '2', '5']
    ys (by decide) (by decide)

/-- Every character `natRepr` emits is a decimal digit. -/
lemma natRepr_chars (n : Nat) :
    ∀ c ∈ (natRepr n).data, c ∈ ['0', '1', '2', '3', '4', '5', '6', '7', '8', '9'] := by
  induction n using Nat.strong_induction_on with
  | _ n ih =>
    rw [natRepr.eq_def]
    split
    · next h =>
      intro c hc
      have hc' : c = Nat.digitChar n := by simpa using hc
      subst hc'
      interval_cases n <;> decide
    · next h =>
      intro c hc
      rw [String.data_append] at hc
      rcases List.mem_append.mp hc with h1 | h2
      · exact ih (n / 10) (Nat.div_lt_self (by omega) (by omega)) c h1
      · have hc' : c = Nat.digitChar (n % 10) := by simpa using h2
        subst hc'
        have hm : n % 10 < 10 := Nat.mod_lt _ (by omega)
        interval_cases hq : (n % 10) <;> decide

/-- `fmt5` never emits the escape character. -/
lemma fmt5_escfree (t : Int) : ∀ c ∈ (fmt5 t).data, ¬ c = '\x1b' := by
  intro c hc
  simp only [fmt5, String.data_append, pad0] at hc
  rcases List.mem_append.mp hc with h1 | h2
  · rcases List.mem_append.mp h1 with h3 | h4
    · rcases List.mem_append.mp h3 with h5 | h6
      · by_cases ht : t < 0 <;> simp [ht] at h5
        · rw [h5]; decide
      · have hd := natRepr_chars _ c h6
        intro hcc
        rw [hcc] at hd
        exact absurd hd (by decide)
    · have hc' : c = '.' := by simpa using h4
      rw [hc']; decide
  · rcases List.mem_append.mp (by simpa [String.data_append] using h2 :
        c ∈ List.replicate _ '0' ++ (natRepr (t.natAbs % 100000)).data) with h7 | h8
    · rw [List.eq_of_mem_replicate h7]; decide
    · have hd := natRepr_chars _ c h8
      intro hcc
      rw [hcc] at hd
      exact absurd hd (by decide)

lemma strip_nil : stripAnsiAux [] = [] := by
  rw [stripAnsiAux]

lemma strip_cons (c : Char) (ys : List Char) (h : ¬ c = '\x1b') :
    stripAnsiAux (c :: ys) = c :: stripAnsiAux ys := by
  rw [stripAnsiAux]
  simp [h]

lemma strip_repl_dash (n : Nat) (ys : List Char) :
    stripAnsiAux (List.replicate n '–' ++ ys) = List.replicate n '–' ++ stripAnsiAux ys :=
  stripAnsiAux_append_escfree _ _
    (fun c hc => by rw [List.eq_of_mem_replicate hc]; decide)

lemma strip_repl_space (n : Nat) (ys : List Char) :
    stripAnsiAux (List.replicate n ' ' ++ ys) = List.replicate n ' ' ++ stripAnsiAux ys :=
  stripAnsiAux_append_escfree _ _
    (fun c hc => by rw [List.eq_of_mem_replicate hc]; decide)

lemma strip_fmt5 (t : Int) (ys : List Char) :
    stripAnsiAux ((fmt5 t).data ++ ys) = (fmt5 t).data ++ stripAnsiAux ys :=
  stripAnsiAux_append_escfree _ _ (fmt5_escfree t)

/-- Stripping the styling escapes from one report line leaves exactly the
border tokens, the label, the en-dash fill, the colon separator, the padded
duration, and the unit suffix. -/
lemma stripAnsi_jamLine (L B : Nat) (j : Jam)
    (hctx : ∀ c ∈ j.context.data, ¬ c = '\x1b') :
    stripAnsi (Jamanak.jamLine L B j) =
      "|| " ++ j.context
        ++ String.mk (List.replicate (L - j.context.length + 2) '–')
        ++ ": "
        ++ String.mk (List.replicate (B - digits_before_decimal (fmt5 j.duration_ticks)) ' ')
        ++ fmt5 j.duration_ticks ++ " ms" ++ " ||" ++ "\n" := by
  apply String.ext
  show (String.mk (stripAnsiAux (Jamanak.jamLine L B j).toList)).data = _
  simp only [data_mk, String.toList]
  simp only [Jamanak.jamLine, fence_dash, fence_space, String.data_append, data_mk,
    List.append_assoc]
  simp [strip_bold, strip_rgb1, strip_rgb2, strip_reset, strip_cons, strip_nil,
    strip_repl_dash, strip_repl_space, strip_fmt5]
  rw [stripAnsiAux_append_escfree _ _ hctx]
  simp [strip_bold, strip_rgb1, strip_rgb2, strip_reset, strip_cons, strip_nil,
    strip_repl_dash, strip_repl_space, strip_fmt5, List.append_assoc]

/-- Claim C6: for every session state, the report produced by `to_string`
consists of a styled horizontal rule of
`W = max(longest + longest_dur, length(title)) + 13` en-dashes, the title
line left-padded with `W / 2 - length(title) / 2` spaces (each division an
integer division), a second full-width rule, some body, and a closing rule
of the same width `W`. -/
theorem title_block_layout (s : Jamanak) :
    ∃ body : String,
      s.to_string =
        ANSI_BOLD ++ ANSI_RGB 227 225 127
          ++ String.mk (List.replicate
              (max (s.longest + s.longest_dur) s.global_context.length + 13) '–') ++ "\n"
          ++ String.mk (List.replicate
              ((max (s.longest + s.longest_dur) s.global_context.length + 13) / 2
                - s.global_context.length / 2) ' ')
          ++ s.global_context ++ "\n"
          ++ String.mk (List.replicate
              (max (s.longest + s.longest_dur) s.global_context.length + 13) '–') ++ "\n"
          ++ body
          ++ ANSI_BOLD ++ ANSI_RGB 227 225 127
          ++ String.mk (List.replicate
              (max (s.longest + s.longest_dur) s.global_context.length + 13) '–')
          ++ ANSI_RESET ++ "\n" := by
  refine ⟨String.join (s.jams.map (Jamanak.jamLine s.longest s.longest_bc)), ?_⟩
  simp only [Jamanak.to_string, fence_dash, fence_space, String.append_assoc]

/-- Claim C7: the report contains exactly one line per stored record, in
storage (completion) order; ignoring the ANSI styling escapes, each line is
the left border `"|| "`, the label, an en-dash fill of width
`longest - label_length + 2` followed by the colon separator, the duration
string left-padded with `longest_bc - digits_before_decimal` spaces, the
suffix `" ms"`, the right border `" ||"`, and a newline; and every duration
string has exactly five digits after the decimal point.  The in-progress
measurement is not in `jams`, so it produces no line. -/
theorem report_lines_layout (s : Jamanak)
    (hctx : ∀ j ∈ s.jams, ∀ c ∈ j.context.data, ¬ c = '\x1b') :
    (s.to_string =
      (ANSI_BOLD ++ ANSI_RGB 227 225 127
        ++ fence (max (s.longest + s.longest_dur) s.global_context.length + 13) "–" ++ "\n"
        ++ fence ((max (s.longest + s.longest_dur) s.global_context.length + 13) / 2
            - s.global_context.length / 2) " "
        ++ s.global_context ++ "\n"
        ++ fence (max (s.longest + s.longest_dur) s.global_context.length + 13) "–" ++ "\n")
      ++ String.join (s.jams.map (Jamanak.jamLine s.longest s.longest_bc))
      ++ (ANSI_BOLD ++ ANSI_RGB 227 225 127
        ++ fence (max (s.longest + s.longest_dur) s.global_context.length + 13) "–"
        ++ ANSI_RESET ++ "\n")) ∧
    (∀ j ∈ s.jams,
      stripAnsi (Jamanak.jamLine s.longest s.longest_bc j) =
        "|| " ++ j.context
          ++ String.mk (List.replicate (s.longest - j.context.length + 2) '–')
          ++ ": "
          ++ String.mk (List.replicate
              (s.longest_bc - digits_before_decimal (fmt5 j.duration_ticks)) ' ')
          ++ fmt5 j.duration_ticks ++ " ms" ++ " ||" ++ "\n") ∧
    (∀ j ∈ s.jams, ∃ fr : String, fr.length = 5 ∧
      fmt5 j.duration_ticks =
        (if j.duration_ticks < 0 then "-" else "")
          ++ natRepr (j.duration_ticks.natAbs / 100000) ++ "." ++ fr) := by
  refine ⟨?_, ?_, ?_⟩
  · simp only [Jamanak.to_string, String.append_assoc]
  · intro j hj
    exact stripAnsi_jamLine s.longest s.longest_bc j (hctx j hj)
  · intro j hj
    refine ⟨pad0 5 (natRepr (j.duration_ticks.natAbs % 100000)), ?_, fmt5_decomp _⟩
    exact pad0_length _ (Nat.mod_lt _ (by omega))

/-- Witness for C7 at a concrete session with one completed record. -/
theorem report_lines_layout_witness :
    (∀ j ∈ (runOps "T" [Op.start "A" 2, Op.stop 5]).jams,
      ∀ c ∈ j.context.data, ¬ c = '\x1b') ∧
    (((runOps "T" [Op.start "A" 2, Op.stop 5]).to_string =
      (ANSI_BOLD ++ ANSI_RGB 227 225 127
        ++ fence (max ((runOps "T" [Op.start "A" 2, Op.stop 5]).longest
              + (runOps "T" [Op.start "A" 2, Op.stop 5]).longest_dur)
            (runOps "T" [Op.start "A" 2, Op.stop 5]).global_context.length + 13) "–" ++ "\n"
        ++ fence ((max ((runOps "T" [Op.start "A" 2, Op.stop 5]).longest
              + (runOps "T" [Op.start "A" 2, Op.stop 5]).longest_dur)
            (runOps "T" [Op.start "A" 2, Op.stop 5]).global_context.length + 13) / 2
            - (runOps "T" [Op.start "A" 2, Op.stop 5]).global_context.length / 2) " "
        ++ (runOps "T" [Op.start "A" 2, Op.stop 5]).global_context ++ "\n"
        ++ fence (max ((runOps "T" [Op.start "A" 2, Op.stop 5]).longest
              + (runOps "T" [Op.start "A" 2, Op.stop 5]).longest_dur)
            (runOps "T" [Op.start "A" 2, Op.stop 5]).global_context.length + 13) "–" ++ "\n")
      ++ String.join ((runOps "T" [Op.start "A" 2, Op.stop 5]).jams.map
          (Jamanak.jamLine (runOps "T" [Op.start "A" 2, Op.stop 5]).longest
            (runOps "T" [Op.start "A" 2, Op.stop 5]).longest_bc))
      ++ (ANSI_BOLD ++ ANSI_RGB 227 225 127
        ++ fence (max ((runOps "T" [Op.start "A" 2, Op.stop 5]).longest
              + (runOps "T" [Op.start "A" 2, Op.stop 5]).longest_dur)
            (runOps "T" [Op.start "A" 2, Op.stop 5]).global_context.length + 13) "–"
        ++ ANSI_RESET ++ "\n")) ∧
    (∀ j ∈ (runOps "T" [Op.start "A" 2, Op.stop 5]).jams,
      stripAnsi (Jamanak.jamLine (runOps "T" [Op.start "A" 2, Op.stop 5]).longest
          (runOps "T" [Op.start "A" 2, Op.stop 5]).longest_bc j) =
        "|| " ++ j.context
          ++ String.mk (List.replicate
              ((runOps "T" [Op.start "A" 2, Op.stop 5]).longest - j.context.length + 2) '–')
          ++ ": "
          ++ String.mk (List.replicate
              ((runOps "T" [Op.start "A" 2, Op.stop 5]).longest_bc
                - digits_before_decimal (fmt5 j.duration_ticks)) ' ')
          ++ fmt5 j.duration_ticks ++ " ms" ++ " ||" ++ "\n") ∧
    (∀ j ∈ (runOps "T" [Op.start "A" 2, Op.stop 5]).jams, ∃ fr : String, fr.length = 5 ∧
      fmt5 j.duration_ticks =
        (if j.duration_ticks < 0 then "-" else "")
          ++ natRepr (j.duration_ticks.natAbs / 100000) ++ "." ++ fr)) :=
  ⟨by decide, report_lines_layout _ (by decide)⟩

end jamanak
